import Mathlib

/-!
Formal model of the noise utility (`src/utils/randomUtils.ts`) and of the
per-frame update loop of the scene component (`src/components/ThreeScene.tsx`).

JavaScript numbers are modelled as exact rationals (`ℚ`); all inputs of
interest (literals such as `0.1`, `0.05`, and the claim instances) are exact,
so no floating rounding is modelled.  The bitwise operations of the source
(`& 255`, `& 15`, `& 1`, `& 2`) act on integers produced by `Math.floor` and
on table entries; on those values they agree with `Int.emod`/`Nat` masking,
which is how they are rendered here.
-/

/-- The hard-coded 256-entry array `permutation` from `randomUtils.ts`
(lines 169–186). -/
def permutation : List ℕ := [
  151, 160, 137, 91, 90, 15, 131, 13, 201, 95, 96, 53, 194, 233, 7, 225, 140,
  36, 103, 30, 69, 142, 8, 99, 37, 240, 21, 10, 23, 190, 6, 148, 247, 120,
  234, 75, 0, 26, 197, 62, 94, 252, 219, 203, 117, 35, 11, 32, 57, 177, 33,
  88, 237, 149, 56, 87, 174, 20, 125, 136, 171, 168, 68, 175, 74, 165, 71,
  134, 139, 48, 27, 166, 77, 146, 158, 231, 83, 111, 229, 122, 60, 211, 133,
  230, 220, 105, 92, 41, 55, 46, 245, 40, 244, 102, 143, 54, 65, 25, 63, 161,
  1, 216, 80, 73, 209, 76, 132, 187, 208, 89, 18, 169, 200, 196, 135, 130,
  116, 188, 159, 86, 164, 100, 109, 198, 173, 186, 3, 64, 52, 217, 226, 250,
  124, 123, 5, 202, 38, 147, 118, 126, 255, 82, 85, 212, 207, 206, 59, 227,
  47, 16, 58, 17, 182, 189, 28, 42, 223, 183, 170, 213, 119, 248, 152, 2, 44,
  154, 163, 70, 221, 153, 101, 155, 167, 43, 172, 9, 129, 22, 39, 253, 19, 98,
  108, 110, 79, 113, 224, 232, 178, 185, 112, 104, 218, 246, 97, 228, 251, 34,
  242, 193, 238, 210, 144, 12, 191, 179, 162, 241, 81, 51, 145, 235, 249, 14,
  239, 107, 49, 192, 214, 31, 181, 199, 106, 157, 184, 84, 204, 176, 115, 121,
  50, 45, 127, 4, 150, 254, 138, 236, 205, 93, 222, 114, 67, 29, 24, 72, 243,
  141, 128, 195, 78, 66, 215, 61, 156, 180]

/-- The 512-entry table `p` built by the initialization loop
`for i < 256: p[i] = permutation[i]; p[256 + i] = permutation[i]`
(lines 188–191). -/
def pTable : List ℕ := permutation ++ permutation

/-- A read `tbl[i]` of the closure-captured table (out-of-range reads never
happen on the indices the algorithm produces; see `noise_table_indices_in_bounds`). -/
def pLookup (tbl : List ℕ) (i : ℕ) : ℕ := tbl.getD i 0

/-- `p[i]` on the one-time-initialized table. -/
def p (i : ℕ) : ℕ := pLookup pTable i

/-- `fade(t) = t * t * t * (t * (t * 6 - 15) + 10)` (line 193). -/
def fade (t : ℚ) : ℚ := t * t * t * (t * (t * 6 - 15) + 10)

/-- The same fade polynomial read over the reals, for the analytic facts
about its derivatives. -/
def fadeReal (t : ℝ) : ℝ := t * t * t * (t * (t * 6 - 15) + 10)

/-- `lerp(t, a, b) = a + t * (b - a)` (line 194). -/
def lerp (t a b : ℚ) : ℚ := a + t * (b - a)

/-- `grad(hash, x, y, z)` (lines 195–200): `h = hash & 15`;
`u = h < 8 ? x : y`; `v = h < 4 ? y : h === 12 || h === 14 ? x : z`;
result `((h & 1) === 0 ? u : -u) + ((h & 2) === 0 ? v : -v)`. -/
def grad (hash : ℕ) (x y z : ℚ) : ℚ :=
  let h := hash &&& 15
  let u := if h < 8 then x else y
  let v := if h < 4 then y else if h = 12 ∨ h = 14 then x else z
  (if h &&& 1 = 0 then u else -u) + (if h &&& 2 = 0 then v else -v)

/-- `Math.floor(x) & 255` (lines 203–205): on the (arbitrarily signed)
integer `⌊x⌋`, the JavaScript mask `& 255` is reduction mod 256. -/
def lattice (x : ℚ) : ℕ := (⌊x⌋ % 256).toNat

/-- `x -= Math.floor(x)` (lines 207–209): the fractional part. -/
def fracPart (x : ℚ) : ℚ := x - ⌊x⌋

/-- `A = p[X] + Y` (line 215). -/
def idxA (tbl : List ℕ) (x y : ℚ) : ℕ := pLookup tbl (lattice x) + lattice y

/-- `B = p[X + 1] + Y` (line 218). -/
def idxB (tbl : List ℕ) (x y : ℚ) : ℕ := pLookup tbl (lattice x + 1) + lattice y

/-- `AA = p[A] + Z` (line 216). -/
def idxAA (tbl : List ℕ) (x y z : ℚ) : ℕ := pLookup tbl (idxA tbl x y) + lattice z

/-- `AB = p[A + 1] + Z` (line 217). -/
def idxAB (tbl : List ℕ) (x y z : ℚ) : ℕ := pLookup tbl (idxA tbl x y + 1) + lattice z

/-- `BA = p[B] + Z` (line 219). -/
def idxBA (tbl : List ℕ) (x y z : ℚ) : ℕ := pLookup tbl (idxB tbl x y) + lattice z

/-- `BB = p[B + 1] + Z` (line 220). -/
def idxBB (tbl : List ℕ) (x y z : ℚ) : ℕ := pLookup tbl (idxB tbl x y + 1) + lattice z

/-- The body of the returned closure (lines 202–239), parameterized by the
closure-captured table `p`.  The lattice indices `X, Y, Z, A, AA, AB, B, BA,
BB` are factored into the named definitions above; the fractional offsets
shadow `x, y, z` exactly as the source mutates them in place. -/
def noiseWith (tbl : List ℕ) (x y z : ℚ) : ℚ :=
  let AA := idxAA tbl x y z
  let AB := idxAB tbl x y z
  let BA := idxBA tbl x y z
  let BB := idxBB tbl x y z
  let x := fracPart x
  let y := fracPart y
  let z := fracPart z
  let u := fade x
  let v := fade y
  let w := fade z
  lerp w
    (lerp v
      (lerp u (grad (pLookup tbl AA) x y z) (grad (pLookup tbl BA) (x - 1) y z))
      (lerp u (grad (pLookup tbl AB) x (y - 1) z)
        (grad (pLookup tbl BB) (x - 1) (y - 1) z)))
    (lerp v
      (lerp u (grad (pLookup tbl (AA + 1)) x y (z - 1))
        (grad (pLookup tbl (BA + 1)) (x - 1) y (z - 1)))
      (lerp u (grad (pLookup tbl (AB + 1)) x (y - 1) (z - 1))
        (grad (pLookup tbl (BB + 1)) (x - 1) (y - 1) (z - 1))))

/-- `noise(x, y, z)`: the exported closure, with the one-time-built table. -/
def noise (x y z : ℚ) : ℚ := noiseWith pTable x y z

/-! ### The frame updater of `ThreeScene.tsx` -/

/-- A triple of JavaScript numbers (`THREE.Vector3` / `THREE.Euler`). -/
structure Vec3 where
  x : ℚ
  y : ℚ
  z : ℚ
deriving DecidableEq

/-- `THREE.MathUtils.lerp(x, y, t) = (1 - t) * x + t * y` (external
collaborator, used by `animate` for the rotation components). -/
def mathUtilsLerp (a b t : ℚ) : ℚ := (1 - t) * a + t * b

/-- `THREE.Vector3.lerp(v, alpha)`: componentwise
`this.x += (v.x - this.x) * alpha` (external collaborator). -/
def vec3Lerp (a b : Vec3) (alpha : ℚ) : Vec3 :=
  ⟨a.x + (b.x - a.x) * alpha, a.y + (b.y - a.y) * alpha, a.z + (b.z - a.z) * alpha⟩

/-- `const initialCameraPosition = new THREE.Vector3(0, 5, 15)` (line 32). -/
def initialCameraPosition : Vec3 := ⟨0, 5, 15⟩

/-- `const initialCameraRotation = new THREE.Euler(0, 0, 0)` (line 33). -/
def initialCameraRotation : Vec3 := ⟨0, 0, 0⟩

/-- `vertices[i+1] = noise(x * 0.2, z * 0.2) * 2` (lines 96–100): the Y
coordinate of one terrain vertex is computed from its X and Z coordinates at
creation time (`noise` is called with the default `z = 0`). -/
def applyTerrainNoise (v : Vec3) : Vec3 :=
  ⟨v.x, noise (v.x * (1/5)) (v.z * (1/5)) 0 * 2, v.z⟩

/-- The state mutated by the `animate` closure: the time accumulator, the
mouse-interaction camera state, and the terrain mesh (vertex buffer plus its
animated `rotation.z`). -/
structure SceneState where
  time : ℚ
  isReturningToStart : Bool
  targetCameraPosition : Vec3
  targetCameraRotation : Vec3
  cameraPosition : Vec3
  cameraRotation : Vec3
  terrainVertices : List Vec3
  terrainRotationZ : ℚ

/-- One run of the `animate` callback (lines 185–238), rendering aside:
`time += 0.01`; if returning-to-start, decay the camera targets toward the
initial pose at rate 0.05; then move the camera toward the targets at rate
0.1; and `terrain.rotation.z += 0.001`.  The terrain vertex buffer is not
touched. -/
def animateFrame (s : SceneState) : SceneState :=
  let targetCameraPosition :=
    if s.isReturningToStart then
      vec3Lerp s.targetCameraPosition initialCameraPosition (1/20)
    else s.targetCameraPosition
  let targetCameraRotation :=
    if s.isReturningToStart then
      ⟨mathUtilsLerp s.targetCameraRotation.x initialCameraRotation.x (1/20),
       mathUtilsLerp s.targetCameraRotation.y initialCameraRotation.y (1/20),
       mathUtilsLerp s.targetCameraRotation.z initialCameraRotation.z (1/20)⟩
    else s.targetCameraRotation
  { time := s.time + 1/100
    isReturningToStart := s.isReturningToStart
    targetCameraPosition := targetCameraPosition
    targetCameraRotation := targetCameraRotation
    cameraPosition := vec3Lerp s.cameraPosition targetCameraPosition (1/10)
    cameraRotation :=
      ⟨mathUtilsLerp s.cameraRotation.x targetCameraRotation.x (1/10),
       mathUtilsLerp s.cameraRotation.y targetCameraRotation.y (1/10),
       mathUtilsLerp s.cameraRotation.z targetCameraRotation.z (1/10)⟩
    terrainVertices := s.terrainVertices
    terrainRotationZ := s.terrainRotationZ + 1/1000 }

/-- A particle: the fixed original offset and per-particle time offset
(`userData` of lines 159–168), plus the live position. -/
structure Particle where
  originalX : ℚ
  originalY : ℚ
  originalZ : ℚ
  timeOffset : ℚ
  posX : ℚ
  posY : ℚ
  posZ : ℚ

/-- Modelled from the spec: the per-frame particle update of the frame
updater.  The particle system is commented out in `ThreeScene.tsx` (lines
153–169 create it, and the animation loop carries no particle-position
update), so the update rule is taken from spec §4.2: evaluate the noise
generator once per axis at
`(originalAxis × 0.1, globalTime × 0.1 + particleTimeOffset + phaseConstant)`
with phase constants 0, 100, 200 for the x, y, z axes, scale by 2, and add
to the original offset. -/
def updateParticle (time : ℚ) (pt : Particle) : Particle :=
  { pt with
    posX := pt.originalX +
      noise (pt.originalX * (1/10)) (time * (1/10) + pt.timeOffset + 0) 0 * 2
    posY := pt.originalY +
      noise (pt.originalY * (1/10)) (time * (1/10) + pt.timeOffset + 100) 0 * 2
    posZ := pt.originalZ +
      noise (pt.originalZ * (1/10)) (time * (1/10) + pt.timeOffset + 200) 0 * 2 }

/-- Modelled from the spec: the particle-relevant frame state — the global
time accumulator and the particle list. -/
structure ParticleSceneState where
  time : ℚ
  particles : List Particle

/-- Modelled from the spec: one frame advances the global time by 0.01 and
recomputes every particle's live position from its fixed data and the new
global time. -/
def particleFrame (s : ParticleSceneState) : ParticleSceneState :=
  { time := s.time + 1/100
    particles := s.particles.map (updateParticle (s.time + 1/100)) }

/-- The camera-return decay applied to one scalar component while
`isReturningToStart` holds: `target ← lerp(target, initial, 0.05)`
(`THREE.MathUtils.lerp` with `t = 0.05`, lines 197–212). -/
def decayStep (init t : ℚ) : ℚ := mathUtilsLerp t init (1/20)

/-- The sequence of target values over successive returning frames. -/
def decaySeq (t0 init : ℚ) : ℕ → ℚ
  | 0 => t0
  | n + 1 => decayStep init (decaySeq t0 init n)

/-! ### Basic facts about the building blocks -/

lemma fracPart_intCast (a : ℤ) : fracPart (a : ℚ) = 0 := by
  unfold fracPart
  simp

lemma fade_zero : fade 0 = 0 := by
  unfold fade
  ring

lemma lerp_zero (a b : ℚ) : lerp 0 a b = a := by
  unfold lerp
  ring

lemma grad_zero_offsets (h : ℕ) : grad h 0 0 0 = 0 := by
  simp [grad]

lemma floor_add_256 (x : ℚ) : ⌊x + 256⌋ = ⌊x⌋ + 256 := by
  have h := Int.floor_add_int x (256 : ℤ)
  push_cast at h
  exact h

lemma lattice_add_256 (x : ℚ) : lattice (x + 256) = lattice x := by
  unfold lattice
  rw [floor_add_256]
  congr 1
  omega

lemma fracPart_add_256 (x : ℚ) : fracPart (x + 256) = fracPart x := by
  unfold fracPart
  rw [floor_add_256]
  push_cast
  ring

lemma fracPart_nonneg (x : ℚ) : 0 ≤ fracPart x :=
  sub_nonneg.2 (Int.floor_le x)

lemma fracPart_lt_one (x : ℚ) : fracPart x < 1 :=
  sub_lt_iff_lt_add.2 (by have := Int.lt_floor_add_one x; linarith)

set_option maxRecDepth 100000 in
lemma permutation_entries_le : ∀ v ∈ permutation, v ≤ 255 := by decide

lemma pTable_entries_le : ∀ v ∈ pTable, v ≤ 255 := by
  intro v hv
  rcases List.mem_append.1 hv with h | h
  · exact permutation_entries_le v h
  · exact permutation_entries_le v h

lemma getD_le_of_entries_le (l : List ℕ) (i d : ℕ) (hd : d ≤ 255)
    (hl : ∀ v ∈ l, v ≤ 255) : l.getD i d ≤ 255 := by
  induction l generalizing i with
  | nil => simpa [List.getD]
  | cons a t ih =>
    cases i with
    | zero => simpa [List.getD] using hl a (List.mem_cons_self a t)
    | succ n =>
      rw [List.getD_cons_succ]
      exact ih n fun v hv => hl v (List.mem_cons_of_mem a hv)

lemma p_le_255 (i : ℕ) : p i ≤ 255 :=
  getD_le_of_entries_le pTable i 0 (by norm_num) pTable_entries_le

lemma lattice_le_255 (x : ℚ) : lattice x ≤ 255 := by
  unfold lattice
  have h1 : (0:ℤ) ≤ ⌊x⌋ % 256 := Int.emod_nonneg ⌊x⌋ (by norm_num)
  have h2 : ⌊x⌋ % 256 < 256 := Int.emod_lt_of_pos ⌊x⌋ (by norm_num)
  omega

set_option maxRecDepth 1000000 in
lemma permutation_perm_range : List.Perm permutation (List.range 256) := by decide

set_option maxRecDepth 100000 in
lemma pTable_length : pTable.length = 512 := by decide

/-- The 12 gradient directions of improved Perlin noise:
`(±1, ±1, 0)`, `(±1, 0, ±1)`, `(0, ±1, ±1)`. -/
def grad12 : List (ℚ × ℚ × ℚ) :=
  [(1, 1, 0), (-1, 1, 0), (1, -1, 0), (-1, -1, 0),
   (1, 0, 1), (-1, 0, 1), (1, 0, -1), (-1, 0, -1),
   (0, 1, 1), (0, -1, 1), (0, 1, -1), (0, -1, -1)]

lemma fadeReal_eq_poly : fadeReal = fun t : ℝ => 6 * t ^ 5 - 15 * t ^ 4 + 10 * t ^ 3 := by
  funext t
  unfold fadeReal
  ring

lemma fadeReal_hasDerivAt (t : ℝ) :
    HasDerivAt fadeReal (30 * t ^ 4 - 60 * t ^ 3 + 30 * t ^ 2) t := by
  have h := (((hasDerivAt_pow 5 t).const_mul (6:ℝ)).sub
    ((hasDerivAt_pow 4 t).const_mul (15:ℝ))).add ((hasDerivAt_pow 3 t).const_mul (10:ℝ))
  rw [fadeReal_eq_poly]
  convert h using 1
  push_cast
  ring

lemma deriv_fadeReal : deriv fadeReal = fun t : ℝ => 30 * t ^ 4 - 60 * t ^ 3 + 30 * t ^ 2 :=
  funext fun t => (fadeReal_hasDerivAt t).deriv

lemma deriv2_fadeReal_hasDerivAt (t : ℝ) :
    HasDerivAt (deriv fadeReal) (120 * t ^ 3 - 180 * t ^ 2 + 60 * t) t := by
  have h := (((hasDerivAt_pow 4 t).const_mul (30:ℝ)).sub
    ((hasDerivAt_pow 3 t).const_mul (60:ℝ))).add ((hasDerivAt_pow 2 t).const_mul (30:ℝ))
  rw [deriv_fadeReal]
  convert h using 1
  push_cast
  ring

lemma decayStep_sub_init (init t : ℚ) :
    decayStep init t - init = (19/20) * (t - init) := by
  unfold decayStep mathUtilsLerp
  ring

lemma decaySeq_sub_init (t0 init : ℚ) :
    ∀ n, decaySeq t0 init n - init = (19/20) ^ n * (t0 - init) := by
  intro n
  induction n with
  | zero => simp [decaySeq]
  | succ n ih =>
    show decayStep init (decaySeq t0 init n) - init = _
    rw [decayStep_sub_init, ih, pow_succ]
    ring

/-! ### Claim theorems -/

/-- C5: for every hash value and offset vector, `grad(h, x, y, z)` is the dot
product of `(x, y, z)` with one of the 12 gradient directions
`(±1, ±1, 0)`, `(±1, 0, ±1)`, `(0, ±1, ±1)`: the low 4 bits of the hash
select two of the three coordinates and their signs. -/
theorem grad_is_gradient_dot :
    ∀ (hash : ℕ) (x y z : ℚ),
      ∃ d ∈ grad12, grad hash x y z = d.1 * x + d.2.1 * y + d.2.2 * z := by
  intro hash x y z
  have h15 : hash &&& 15 < 16 := Nat.lt_succ_of_le Nat.and_le_right
  simp only [grad]
  set m := hash &&& 15 with hm
  clear_value m
  interval_cases m
  · exact ⟨(1, 1, 0), by simp [grad12], by simp +decide⟩
  · exact ⟨(-1, 1, 0), by simp [grad12], by simp +decide⟩
  · exact ⟨(1, -1, 0), by simp [grad12], by simp +decide⟩
  · exact ⟨(-1, -1, 0), by simp [grad12], by simp +decide⟩
  · exact ⟨(1, 0, 1), by simp [grad12], by simp +decide⟩
  · exact ⟨(-1, 0, 1), by simp [grad12], by simp +decide⟩
  · exact ⟨(1, 0, -1), by simp [grad12], by simp +decide⟩
  · exact ⟨(-1, 0, -1), by simp [grad12], by simp +decide⟩
  · exact ⟨(0, 1, 1), by simp [grad12], by simp +decide⟩
  · exact ⟨(0, -1, 1), by simp [grad12], by simp +decide⟩
  · exact ⟨(0, 1, -1), by simp [grad12], by simp +decide⟩
  · exact ⟨(0, -1, -1), by simp [grad12], by simp +decide⟩
  · exact ⟨(1, 1, 0), by simp [grad12], by simp +decide [add_comm]⟩
  · exact ⟨(0, -1, 1), by simp [grad12], by simp +decide⟩
  · exact ⟨(-1, 1, 0), by simp [grad12], by simp +decide [add_comm]⟩
  · exact ⟨(0, -1, -1), by simp [grad12], by simp +decide⟩

/-- C6: the fade function is the quintic smoothstep polynomial
`6t⁵ − 15t⁴ + 10t³` (both the `ℚ` copy used by `noise` and its real
reading), with `fade(0) = 0`, `fade(1) = 1`, and vanishing first and second
derivatives at `t = 0` and `t = 1`. -/
theorem fade_is_smoothstep_quintic :
    (∀ t : ℚ, fade t = 6 * t ^ 5 - 15 * t ^ 4 + 10 * t ^ 3) ∧
    (∀ t : ℝ, fadeReal t = 6 * t ^ 5 - 15 * t ^ 4 + 10 * t ^ 3) ∧
    fadeReal 0 = 0 ∧ fadeReal 1 = 1 ∧
    deriv fadeReal 0 = 0 ∧ deriv fadeReal 1 = 0 ∧
    deriv (deriv fadeReal) 0 = 0 ∧ deriv (deriv fadeReal) 1 = 0 := by
  refine ⟨fun t => by unfold fade; ring,
    fun t => by rw [fadeReal_eq_poly],
    by unfold fadeReal; norm_num, by unfold fadeReal; norm_num, ?_, ?_, ?_, ?_⟩
  · rw [deriv_fadeReal]
    norm_num
  · rw [deriv_fadeReal]
    norm_num
  · rw [(deriv2_fadeReal_hasDerivAt 0).deriv]
    norm_num
  · rw [(deriv2_fadeReal_hasDerivAt 1).deriv]
    norm_num

/-- C9: `noise` returns exactly 0 at every input whose three coordinates are
integers — the fractional offsets vanish, every interpolation weight is
`fade(0) = 0`, so the nested lerps select the corner value
`grad(p[AA], 0, 0, 0) = 0`; in particular `noise(0,0,0) = 0`. -/
theorem noise_zero_at_integer_points :
    (∀ a b c : ℤ, noise (a : ℚ) (b : ℚ) (c : ℚ) = 0) ∧ noise 0 0 0 = 0 := by
  have hmain : ∀ a b c : ℤ, noise (a : ℚ) (b : ℚ) (c : ℚ) = 0 := by
    intro a b c
    unfold noise noiseWith
    simp only [fracPart_intCast, fade_zero, lerp_zero, grad_zero_offsets]
  exact ⟨hmain, by simpa using hmain 0 0 0⟩

/-- C3: `noise` is exactly periodic with period 256 along each axis: the
integer lattice coordinate is reduced mod 256 and the fractional offset is
unchanged by adding 256. -/
theorem noise_periodic_256 :
    ∀ x y z : ℚ, noise (x + 256) y z = noise x y z ∧
      noise x (y + 256) z = noise x y z ∧ noise x y (z + 256) = noise x y z := by
  intro x y z
  refine ⟨?_, ?_, ?_⟩ <;>
    · unfold noise noiseWith idxAA idxAB idxBA idxBB idxA idxB
      simp only [lattice_add_256, fracPart_add_256]

/-- C10: every table index a `noise` evaluation reads — `X`, `X+1`, `A`,
`A+1`, `B`, `B+1`, `AA`, `AA+1`, `AB`, `AB+1`, `BA`, `BA+1`, `BB`, `BB+1` —
is at most 511 for every rational input, hence reads an initialized entry of
the 512-entry table: the hard-coded 256-entry array is a permutation of
0–255 (so every stored value is at most 255), the lattice coordinates are
masked to at most 255, and every derived index is at most 255 + 255 + 1. -/
theorem noise_table_indices_in_bounds :
    pTable.length = 512 ∧ List.Perm permutation (List.range 256) ∧
    ∀ x y z : ℚ,
      lattice x ≤ 255 ∧ lattice x + 1 ≤ 511 ∧
      idxA pTable x y ≤ 510 ∧ idxA pTable x y + 1 ≤ 511 ∧
      idxB pTable x y ≤ 510 ∧ idxB pTable x y + 1 ≤ 511 ∧
      idxAA pTable x y z ≤ 510 ∧ idxAA pTable x y z + 1 ≤ 511 ∧
      idxAB pTable x y z ≤ 510 ∧ idxAB pTable x y z + 1 ≤ 511 ∧
      idxBA pTable x y z ≤ 510 ∧ idxBA pTable x y z + 1 ≤ 511 ∧
      idxBB pTable x y z ≤ 510 ∧ idxBB pTable x y z + 1 ≤ 511 := by
  refine ⟨pTable_length, permutation_perm_range, ?_⟩
  intro x y z
  have hx := lattice_le_255 x
  have hy := lattice_le_255 y
  have hz := lattice_le_255 z
  have hpA := p_le_255 (lattice x)
  have hpB := p_le_255 (lattice x + 1)
  have h1 := p_le_255 (idxA pTable x y)
  have h2 := p_le_255 (idxA pTable x y + 1)
  have h3 := p_le_255 (idxB pTable x y)
  have h4 := p_le_255 (idxB pTable x y + 1)
  unfold idxAA idxAB idxBA idxBB idxA idxB at *
  unfold p pLookup at *
  refine ⟨hx, by omega, by omega, by omega, by omega, by omega,
    by omega, by omega, by omega, by omega, by omega, by omega, by omega, by omega⟩

/-- C4: while returning to start, the camera-target decay
`t(n+1) = lerp(t(n), initial, 0.05)` converges monotonically: whenever
`t0 ≠ initial`, the distance to the initial value strictly decreases every
frame, tends to 0, the iterates never cross to the far side of the initial
value, and they never exactly reach it. -/
theorem camera_decay_monotone_convergence (t0 init : ℚ) (h : t0 ≠ init) :
    (∀ n, |decaySeq t0 init (n + 1) - init| < |decaySeq t0 init n - init|) ∧
    (∀ ε : ℚ, 0 < ε → ∃ N, ∀ n, N ≤ n → |decaySeq t0 init n - init| < ε) ∧
    (∀ n, 0 < (decaySeq t0 init n - init) * (t0 - init)) ∧
    (∀ n, decaySeq t0 init n ≠ init) := by
  have hd : t0 - init ≠ 0 := sub_ne_zero.2 h
  have hdpos : 0 < |t0 - init| := abs_pos.2 hd
  have habs : ∀ n, |decaySeq t0 init n - init| = (19/20) ^ n * |t0 - init| := by
    intro n
    rw [decaySeq_sub_init, abs_mul, abs_pow,
      abs_of_pos (show (0:ℚ) < 19/20 by norm_num)]
  refine ⟨?_, ?_, ?_, ?_⟩
  · intro n
    rw [habs, habs, pow_succ]
    have hp : (0:ℚ) < (19/20) ^ n := pow_pos (by norm_num) n
    nlinarith
  · intro ε hε
    obtain ⟨N, hN⟩ := exists_pow_lt_of_lt_one (div_pos hε hdpos)
      (show (19:ℚ)/20 < 1 by norm_num)
    refine ⟨N, fun n hn => ?_⟩
    rw [habs]
    have h1 : (19/20:ℚ) ^ n ≤ (19/20) ^ N :=
      pow_le_pow_of_le_one (by norm_num) (by norm_num) hn
    have h2 : (19/20:ℚ) ^ N * |t0 - init| < ε := (lt_div_iff₀ hdpos).1 hN
    nlinarith
  · intro n
    rw [decaySeq_sub_init]
    have hp : (0:ℚ) < (19/20) ^ n := pow_pos (by norm_num) n
    have hsq : 0 < (t0 - init) ^ 2 := (sq_nonneg _).lt_of_ne (Ne.symm (pow_ne_zero 2 hd))
    nlinarith
  · intro n hcontra
    have hkey := decaySeq_sub_init t0 init n
    rw [hcontra, sub_self] at hkey
    exact mul_ne_zero (pow_ne_zero n (by norm_num)) hd hkey.symm

/-- Witness for C4 at `t0 = 1`, `init = 0`. -/
theorem camera_decay_monotone_convergence_witness :
    (1:ℚ) ≠ 0 ∧
    ((∀ n, |decaySeq 1 0 (n + 1) - 0| < |decaySeq 1 0 n - 0|) ∧
     (∀ ε : ℚ, 0 < ε → ∃ N, ∀ n, N ≤ n → |decaySeq 1 0 n - 0| < ε) ∧
     (∀ n, 0 < (decaySeq 1 0 n - 0) * (1 - 0)) ∧
     (∀ n, decaySeq 1 0 n ≠ 0)) :=
  ⟨one_ne_zero, camera_decay_monotone_convergence 1 0 one_ne_zero⟩

/-- C7: each terrain vertex's Y coordinate is computed once, at creation
time, as `noise(x·0.2, z·0.2) × 2` from the vertex's X and Z coordinates,
and the animation loop never modifies the vertex buffer afterwards — an
arbitrary number of frames leaves every vertex unchanged and only advances
the terrain mesh's rotation (by 0.001 per frame). -/
theorem terrain_height_set_once :
    (∀ v : Vec3, applyTerrainNoise v =
      ⟨v.x, noise (v.x * (1/5)) (v.z * (1/5)) 0 * 2, v.z⟩) ∧
    (∀ (s : SceneState) (n : ℕ),
      (animateFrame^[n] s).terrainVertices = s.terrainVertices ∧
      (animateFrame^[n] s).terrainRotationZ = s.terrainRotationZ + n * (1/1000)) := by
  refine ⟨fun v => rfl, fun s n => ?_⟩
  induction n with
  | zero => simp
  | succ n ih =>
    rw [Function.iterate_succ_apply']
    refine ⟨ih.1, ?_⟩
    show (animateFrame^[n] s).terrainRotationZ + 1/1000 = _
    rw [ih.2]
    push_cast
    ring

/-! ### Call-sequence model of the noise closure (for determinism) -/

/-- The closure state of the noise generator: the permutation table `p`,
built once when the module-level IIFE runs. -/
structure NoiseGenState where
  table : List ℕ

/-- The state right after the one-time initialization loop. -/
def noiseGenInit : NoiseGenState := ⟨pTable⟩

/-- One call `noise(x, y, z)`: it reads the closure-captured table and
returns the value together with the (unmodified) closure state. -/
def noiseCall (st : NoiseGenState) (args : ℚ × ℚ × ℚ) : ℚ × NoiseGenState :=
  (noiseWith st.table args.1 args.2.1 args.2.2, st)

/-- Run a whole sequence of `noise` calls, threading the closure state. -/
def runNoiseCalls (st : NoiseGenState) : List (ℚ × ℚ × ℚ) → List ℚ
  | [] => []
  | a :: rest => (noiseCall st a).1 :: runNoiseCalls (noiseCall st a).2 rest

lemma runNoiseCalls_eq_map (st : NoiseGenState) (calls : List (ℚ × ℚ × ℚ)) :
    runNoiseCalls st calls = calls.map fun a => noiseWith st.table a.1 a.2.1 a.2.2 := by
  induction calls with
  | nil => rfl
  | cons a rest ih => simp [runNoiseCalls, noiseCall, ih]

lemma getD_map_of_lt {α β : Type} (f : α → β) (l : List α) (k : ℕ)
    (hk : k < l.length) (d : α) (d' : β) : (l.map f).getD k d' = f (l.getD k d) := by
  rw [List.getD_eq_getElem?_getD, List.getD_eq_getElem?_getD, List.getElem?_map,
    List.getElem?_eq_getElem hk]
  rfl

/-- Three sample calls, the first and third with identical arguments. -/
def sampleCalls : List (ℚ × ℚ × ℚ) := [(0, 0, 0), (1/2, 1/2, 1/2), (0, 0, 0)]

lemma updateParticle_overwrite (t t' : ℚ) (pt : Particle) :
    updateParticle t' (updateParticle t pt) = updateParticle t' pt := rfl

lemma particleFrame_time (s : ParticleSceneState) :
    (particleFrame s).time = s.time + 1/100 := rfl

/-- C2 — spec-modelled: over any number of frames, every particle's live
position is recomputed as a pure function of its fixed original offset, its
fixed time offset and the current global time (after `n+1` frames the
particle list equals a single `updateParticle` pass at the final time, so no
state is carried between frames); one update writes
`original + noise(original × 0.1, time × 0.1 + timeOffset + phase) × 2`
per axis with phases 0, 100, 200, and prior live positions never influence
the result. -/
theorem particle_positions_pure :
    (∀ (s : ParticleSceneState) (n : ℕ),
      (particleFrame^[n + 1] s).time = s.time + ((n : ℚ) + 1) * (1/100) ∧
      (particleFrame^[n + 1] s).particles =
        s.particles.map (updateParticle (s.time + ((n : ℚ) + 1) * (1/100)))) ∧
    (∀ (time : ℚ) (pt : Particle),
      (updateParticle time pt).posX = pt.originalX +
        noise (pt.originalX * (1/10)) (time * (1/10) + pt.timeOffset + 0) 0 * 2 ∧
      (updateParticle time pt).posY = pt.originalY +
        noise (pt.originalY * (1/10)) (time * (1/10) + pt.timeOffset + 100) 0 * 2 ∧
      (updateParticle time pt).posZ = pt.originalZ +
        noise (pt.originalZ * (1/10)) (time * (1/10) + pt.timeOffset + 200) 0 * 2 ∧
      (updateParticle time pt).originalX = pt.originalX ∧
      (updateParticle time pt).originalY = pt.originalY ∧
      (updateParticle time pt).originalZ = pt.originalZ ∧
      (updateParticle time pt).timeOffset = pt.timeOffset) ∧
    (∀ (time : ℚ) (pt qt : Particle), pt.originalX = qt.originalX →
      pt.originalY = qt.originalY → pt.originalZ = qt.originalZ →
      pt.timeOffset = qt.timeOffset →
      (updateParticle time pt).posX = (updateParticle time qt).posX ∧
      (updateParticle time pt).posY = (updateParticle time qt).posY ∧
      (updateParticle time pt).posZ = (updateParticle time qt).posZ) := by
  refine ⟨?_, fun time pt => ⟨rfl, rfl, rfl, rfl, rfl, rfl, rfl⟩, ?_⟩
  · intro s n
    induction n with
    | zero =>
      refine ⟨by simp [particleFrame_time], ?_⟩
      show (particleFrame s).particles = _
      unfold particleFrame
      norm_num
    | succ n ih =>
      rw [Function.iterate_succ_apply']
      constructor
      · show (particleFrame^[n + 1] s).time + 1/100 = _
        rw [ih.1]
        push_cast
        ring
      · show ((particleFrame^[n + 1] s).particles).map
          (updateParticle ((particleFrame^[n + 1] s).time + 1/100)) = _
        rw [ih.1, ih.2, List.map_map]
        have hfun : updateParticle (s.time + ((n : ℚ) + 1) * (1/100) + 1/100) ∘
            updateParticle (s.time + ((n : ℚ) + 1) * (1/100)) =
            updateParticle (s.time + ((n : ℚ) + 1 + 1) * (1/100)) := by
          funext pt
          rw [Function.comp_apply, updateParticle_overwrite]
          congr 1
          ring
        rw [hfun]
        push_cast
        ring_nf
  · intro time pt qt hx hy hz ht
    refine ⟨?_, ?_, ?_⟩ <;> simp [updateParticle, hx, hy, hz, ht]

/-- Witness for C2: two particles with the same fixed data but different
prior live positions get identical recomputed positions. -/
theorem particle_positions_pure_witness :
    (updateParticle 5 ⟨1, 2, 3, 4, 10, 11, 12⟩).posX =
      (updateParticle 5 ⟨1, 2, 3, 4, 99, 98, 97⟩).posX ∧
    (updateParticle 5 ⟨1, 2, 3, 4, 10, 11, 12⟩).posY =
      (updateParticle 5 ⟨1, 2, 3, 4, 99, 98, 97⟩).posY ∧
    (updateParticle 5 ⟨1, 2, 3, 4, 10, 11, 12⟩).posZ =
      (updateParticle 5 ⟨1, 2, 3, 4, 99, 98, 97⟩).posZ :=
  particle_positions_pure.2.2 5 ⟨1, 2, 3, 4, 10, 11, 12⟩ ⟨1, 2, 3, 4, 99, 98, 97⟩
    rfl rfl rfl rfl

/-- C8: `noise` is deterministic across any call sequence — the closure
state (the permutation table) is never written by a call, so two calls with
identical arguments return identical values no matter how many other calls,
with any arguments, happen in between. -/
theorem noise_calls_deterministic (calls : List (ℚ × ℚ × ℚ)) (i j : ℕ)
    (hi : i < calls.length) (hj : j < calls.length)
    (heq : calls.getD i (0, 0, 0) = calls.getD j (0, 0, 0)) :
    (runNoiseCalls noiseGenInit calls).getD i 0 =
      (runNoiseCalls noiseGenInit calls).getD j 0 := by
  rw [runNoiseCalls_eq_map,
    getD_map_of_lt _ calls i hi (0, 0, 0) 0,
    getD_map_of_lt _ calls j hj (0, 0, 0) 0, heq]

/-- Witness for C8 on `sampleCalls`: positions 0 and 2 carry the same
arguments and produce the same value, with a different call in between. -/
theorem noise_calls_deterministic_witness :
    0 < sampleCalls.length ∧ 2 < sampleCalls.length ∧
    sampleCalls.getD 0 (0, 0, 0) = sampleCalls.getD 2 (0, 0, 0) ∧
    (runNoiseCalls noiseGenInit sampleCalls).getD 0 0 =
      (runNoiseCalls noiseGenInit sampleCalls).getD 2 0 :=
  ⟨by decide, by decide, rfl,
    noise_calls_deterministic sampleCalls 0 2 (by decide) (by decide) rfl⟩

lemma fade_nonneg {t : ℚ} (h0 : 0 ≤ t) (h1 : t ≤ 1) : 0 ≤ fade t := by
  unfold fade
  nlinarith [sq_nonneg t, sq_nonneg (t - 1), mul_nonneg h0 h0, mul_nonneg (mul_nonneg h0 h0) h0]

lemma fade_le_one {t : ℚ} (h0 : 0 ≤ t) (h1 : t ≤ 1) : fade t ≤ 1 := by
  have hq : 0 ≤ 6 * t ^ 2 + 3 * t + 1 := by nlinarith [sq_nonneg t]
  have key : 0 ≤ (1 - t) ^ 3 * (6 * t ^ 2 + 3 * t + 1) :=
    mul_nonneg (pow_nonneg (by linarith) 3) hq
  unfold fade
  nlinarith [key]

lemma phi_le_half {t : ℚ} (h0 : 0 ≤ t) (h1 : t ≤ 1) :
    (1 - fade t) * t + fade t * (1 - t) ≤ 1/2 := by
  have hq : 0 ≤ 6 * (t ^ 2 - t) ^ 2 + 2 * t * (1 - t) + 1 := by
    nlinarith [sq_nonneg (t ^ 2 - t), mul_nonneg h0 (sub_nonneg.2 h1)]
  have key : 0 ≤ (2 * t - 1) * (fade t - 1/2) := by
    unfold fade
    nlinarith [mul_nonneg (sq_nonneg (t - 1/2)) hq]
  nlinarith [key]

lemma abs_grad_le (h : ℕ) (x y z : ℚ) : |grad h x y z| ≤ |x| + |y| + |z| := by
  have h15 : h &&& 15 < 16 := Nat.lt_succ_of_le Nat.and_le_right
  simp only [grad]
  set m := h &&& 15 with hm
  clear_value m
  interval_cases m <;>
    · refine (abs_add _ _).trans ?_
      simp +decide [abs_neg]
      try linarith [abs_nonneg x, abs_nonneg y, abs_nonneg z]

lemma lerp_abs_bound {t a b A B : ℚ} (ht0 : 0 ≤ t) (ht1 : t ≤ 1)
    (ha : |a| ≤ A) (hb : |b| ≤ B) : |lerp t a b| ≤ (1 - t) * A + t * B := by
  have heq : lerp t a b = (1 - t) * a + t * b := by unfold lerp; ring
  rw [heq]
  calc |(1 - t) * a + t * b| ≤ |(1 - t) * a| + |t * b| := abs_add _ _
    _ = (1 - t) * |a| + t * |b| := by
        rw [abs_mul, abs_mul, abs_of_nonneg (by linarith : (0:ℚ) ≤ 1 - t), abs_of_nonneg ht0]
    _ ≤ (1 - t) * A + t * B := by
        have h1 := abs_nonneg a
        have h2 := abs_nonneg b
        nlinarith

/-- C1 (amended): the noise value is always within [-3/2, 3/2]: every
corner gradient satisfies the triangle bound, each interpolation weight lies
in [0, 1], and the per-axis weighted offset is at most 1/2.  (The original
[-1, 1] interval fails; see the counterexample.) -/
theorem noise_bounded_by_three_halves (x y z : ℚ) :
    |noise x y z| ≤ 3/2 := by
  simp only [noise, noiseWith]
  set xf := fracPart x with hxf
  set yf := fracPart y with hyf
  set zf := fracPart z with hzf
  have hx0 : 0 ≤ xf := fracPart_nonneg x
  have hx1 : xf ≤ 1 := le_of_lt (fracPart_lt_one x)
  have hy0 : 0 ≤ yf := fracPart_nonneg y
  have hy1 : yf ≤ 1 := le_of_lt (fracPart_lt_one y)
  have hz0 : 0 ≤ zf := fracPart_nonneg z
  have hz1 : zf ≤ 1 := le_of_lt (fracPart_lt_one z)
  have hu0 : 0 ≤ fade xf := fade_nonneg hx0 hx1
  have hu1 : fade xf ≤ 1 := fade_le_one hx0 hx1
  have hv0 : 0 ≤ fade yf := fade_nonneg hy0 hy1
  have hv1 : fade yf ≤ 1 := fade_le_one hy0 hy1
  have hw0 : 0 ≤ fade zf := fade_nonneg hz0 hz1
  have hw1 : fade zf ≤ 1 := fade_le_one hz0 hz1
  have haxf : |xf| = xf := abs_of_nonneg hx0
  have hayf : |yf| = yf := abs_of_nonneg hy0
  have hazf : |zf| = zf := abs_of_nonneg hz0
  have haxm : |xf - 1| = 1 - xf := by rw [abs_sub_comm]; exact abs_of_nonneg (by linarith)
  have haym : |yf - 1| = 1 - yf := by rw [abs_sub_comm]; exact abs_of_nonneg (by linarith)
  have hazm : |zf - 1| = 1 - zf := by rw [abs_sub_comm]; exact abs_of_nonneg (by linarith)
  have hgb : ∀ (h : ℕ) (a b c : ℚ) (A B C : ℚ), |a| = A → |b| = B → |c| = C →
      |grad h a b c| ≤ A + B + C := by
    intro h a b c A B C hA hB hC
    have := abs_grad_le h a b c
    rw [hA, hB, hC] at this
    exact this
  have hL1 : |lerp (fade xf) (grad (pLookup pTable (idxAA pTable x y z)) xf yf zf)
      (grad (pLookup pTable (idxBA pTable x y z)) (xf - 1) yf zf)| ≤
      ((1 - fade xf) * xf + fade xf * (1 - xf)) + yf + zf := by
    have h1 := hgb (pLookup pTable (idxAA pTable x y z)) xf yf zf _ _ _ haxf hayf hazf
    have h2 := hgb (pLookup pTable (idxBA pTable x y z)) (xf - 1) yf zf _ _ _ haxm hayf hazf
    calc |_| ≤ (1 - fade xf) * (xf + yf + zf) + fade xf * ((1 - xf) + yf + zf) :=
          lerp_abs_bound hu0 hu1 h1 h2
      _ = ((1 - fade xf) * xf + fade xf * (1 - xf)) + yf + zf := by ring
  have hL2 : |lerp (fade xf) (grad (pLookup pTable (idxAB pTable x y z)) xf (yf - 1) zf)
      (grad (pLookup pTable (idxBB pTable x y z)) (xf - 1) (yf - 1) zf)| ≤
      ((1 - fade xf) * xf + fade xf * (1 - xf)) + (1 - yf) + zf := by
    have h1 := hgb (pLookup pTable (idxAB pTable x y z)) xf (yf - 1) zf _ _ _ haxf haym hazf
    have h2 := hgb (pLookup pTable (idxBB pTable x y z)) (xf - 1) (yf - 1) zf _ _ _ haxm haym hazf
    calc |_| ≤ (1 - fade xf) * (xf + (1 - yf) + zf) + fade xf * ((1 - xf) + (1 - yf) + zf) :=
          lerp_abs_bound hu0 hu1 h1 h2
      _ = ((1 - fade xf) * xf + fade xf * (1 - xf)) + (1 - yf) + zf := by ring
  have hL3 : |lerp (fade xf) (grad (pLookup pTable (idxAA pTable x y z + 1)) xf yf (zf - 1))
      (grad (pLookup pTable (idxBA pTable x y z + 1)) (xf - 1) yf (zf - 1))| ≤
      ((1 - fade xf) * xf + fade xf * (1 - xf)) + yf + (1 - zf) := by
    have h1 := hgb (pLookup pTable (idxAA pTable x y z + 1)) xf yf (zf - 1) _ _ _ haxf hayf hazm
    have h2 := hgb (pLookup pTable (idxBA pTable x y z + 1)) (xf - 1) yf (zf - 1) _ _ _ haxm hayf hazm
    calc |_| ≤ (1 - fade xf) * (xf + yf + (1 - zf)) + fade xf * ((1 - xf) + yf + (1 - zf)) :=
          lerp_abs_bound hu0 hu1 h1 h2
      _ = ((1 - fade xf) * xf + fade xf * (1 - xf)) + yf + (1 - zf) := by ring
  have hL4 : |lerp (fade xf) (grad (pLookup pTable (idxAB pTable x y z + 1)) xf (yf - 1) (zf - 1))
      (grad (pLookup pTable (idxBB pTable x y z + 1)) (xf - 1) (yf - 1) (zf - 1))| ≤
      ((1 - fade xf) * xf + fade xf * (1 - xf)) + (1 - yf) + (1 - zf) := by
    have h1 := hgb (pLookup pTable (idxAB pTable x y z + 1)) xf (yf - 1) (zf - 1) _ _ _ haxf haym hazm
    have h2 := hgb (pLookup pTable (idxBB pTable x y z + 1)) (xf - 1) (yf - 1) (zf - 1) _ _ _ haxm haym hazm
    calc |_| ≤ (1 - fade xf) * (xf + (1 - yf) + (1 - zf)) +
          fade xf * ((1 - xf) + (1 - yf) + (1 - zf)) := lerp_abs_bound hu0 hu1 h1 h2
      _ = ((1 - fade xf) * xf + fade xf * (1 - xf)) + (1 - yf) + (1 - zf) := by ring
  have hM1 := lerp_abs_bound hv0 hv1 hL1 hL2
  have hM2 := lerp_abs_bound hv0 hv1 hL3 hL4
  have hF := lerp_abs_bound hw0 hw1 hM1 hM2
  have hphix := phi_le_half hx0 hx1
  have hphiy := phi_le_half hy0 hy1
  have hphiz := phi_le_half hz0 hz1
  calc |_| ≤ _ := hF
    _ ≤ 3/2 := by nlinarith [hphix, hphiy, hphiz, hw0, hw1, hv0, hv1]

set_option maxRecDepth 10000 in
lemma lattice_value_x : lattice (49/4 : ℚ) = 12 := by
  unfold lattice
  rw [show ⌊(49/4 : ℚ)⌋ = (12 : ℤ) by norm_num]
  decide

set_option maxRecDepth 10000 in
lemma lattice_value_y : lattice (375/2 : ℚ) = 187 := by
  unfold lattice
  rw [show ⌊(375/2 : ℚ)⌋ = (187 : ℤ) by norm_num]
  decide

set_option maxRecDepth 10000 in
lemma lattice_value_z : lattice (11/2 : ℚ) = 5 := by
  unfold lattice
  rw [show ⌊(11/2 : ℚ)⌋ = (5 : ℤ) by norm_num]
  decide

lemma fracPart_value_x : fracPart (49/4 : ℚ) = 1/4 := by
  unfold fracPart
  rw [show ⌊(49/4 : ℚ)⌋ = (12 : ℤ) by norm_num]
  norm_num

lemma fracPart_value_y : fracPart (375/2 : ℚ) = 1/2 := by
  unfold fracPart
  rw [show ⌊(375/2 : ℚ)⌋ = (187 : ℤ) by norm_num]
  norm_num

lemma fracPart_value_z : fracPart (11/2 : ℚ) = 1/2 := by
  unfold fracPart
  rw [show ⌊(11/2 : ℚ)⌋ = (5 : ℤ) by norm_num]
  norm_num

set_option maxRecDepth 100000 in
lemma idxA_value : idxA pTable (49/4) (375/2) = 381 := by
  unfold idxA
  rw [lattice_value_x, lattice_value_y]
  decide

set_option maxRecDepth 100000 in
lemma idxB_value : idxB pTable (49/4) (375/2) = 420 := by
  unfold idxB
  rw [lattice_value_x, lattice_value_y]
  decide

set_option maxRecDepth 100000 in
lemma idxAA_value : idxAA pTable (49/4) (375/2) (11/2) = 191 := by
  unfold idxAA
  rw [idxA_value, lattice_value_z]
  decide

set_option maxRecDepth 100000 in
lemma idxAB_value : idxAB pTable (49/4) (375/2) (11/2) = 8 := by
  unfold idxAB
  rw [idxA_value, lattice_value_z]
  decide

set_option maxRecDepth 100000 in
lemma idxBA_value : idxBA pTable (49/4) (375/2) (11/2) = 49 := by
  unfold idxBA
  rw [idxB_value, lattice_value_z]
  decide

set_option maxRecDepth 100000 in
lemma idxBB_value : idxBB pTable (49/4) (375/2) (11/2) = 159 := by
  unfold idxBB
  rw [idxB_value, lattice_value_z]
  decide

/-- C1 (counterexample): at `(x, y, z) = (49/4, 375/2, 11/2)` the noise
value is exactly 2101/2048 > 1, so the output does not lie in [-1, 1]. -/
theorem noise_range_counterexample :
    noise (49/4) (375/2) (11/2) = 2101/2048 ∧
      1 < noise (49/4) (375/2) (11/2) := by
  have hval : noise (49/4) (375/2) (11/2) = 2101/2048 := by
    simp only [noise, noiseWith, idxAA_value, idxAB_value, idxBA_value, idxBB_value,
      fracPart_value_x, fracPart_value_y, fracPart_value_z]
    rw [show pLookup pTable 191 = 104 by decide,
      show pLookup pTable 49 = 177 by decide,
      show pLookup pTable 8 = 201 by decide,
      show pLookup pTable 159 = 213 by decide,
      show pLookup pTable (191 + 1) = 218 by decide,
      show pLookup pTable (49 + 1) = 33 by decide,
      show pLookup pTable (8 + 1) = 95 by decide,
      show pLookup pTable (159 + 1) = 119 by decide,
      show grad 104 (1/4) (1/2) (1/2) = 1 by (simp +decide [grad]; norm_num),
      show grad 177 (1/4 - 1) (1/2) (1/2) = 5/4 by (simp +decide [grad]; norm_num),
      show grad 201 (1/4) (1/2 - 1) (1/2) = 1 by simp +decide [grad],
      show grad 213 (1/4 - 1) (1/2 - 1) (1/2) = 5/4 by (simp +decide [grad]; norm_num),
      show grad 218 (1/4) (1/2) (1/2 - 1) = 1 by simp +decide [grad],
      show grad 33 (1/4 - 1) (1/2) (1/2 - 1) = 5/4 by (simp +decide [grad]; norm_num),
      show grad 95 (1/4) (1/2 - 1) (1/2 - 1) = 1 by (simp +decide [grad]; norm_num),
      show grad 119 (1/4 - 1) (1/2 - 1) (1/2 - 1) = 5/4 by (simp +decide [grad]; norm_num)]
    unfold lerp fade
    norm_num
  exact ⟨hval, by rw [hval]; norm_num⟩
